import Mathlib

/-!
Verification of `internal/util/slices.go` and of the NBSetupKey validating webhook.

Shallow embedding of the Go sources:

* a Go slice `[]T` is a `List T`; the nil slice and the empty slice are both `[]`
  (they are indistinguishable by `len`, `range` and `append`);
* the type constraint `comparable` is a `BEq T` instance standing for Go's `==`;
  no law is assumed in the definitions (Go's `==` on floats is not reflexive);
* a Go `string` is the list of its code points, `List Char`;
* a `for ... range` loop with an early `return` is a structural recursion on the
  list, a loop that accumulates with `append` is a left fold.
-/

set_option autoImplicit false

namespace Util

universe u
variable {T : Type u}

/-! ## `Contains` -/

/-- Go `Contains`: the range loop returns `true` at the first `v == y`,
and `false` once the slice is exhausted. -/
def Contains [BEq T] : List T → T → Bool
  | [], _ => false
  | v :: rest, y => if v == y then true else Contains rest y

/-! ## `Without` -/

/-- Go `Without`: `ret` starts as the nil slice and every `v` with `v != y`
is appended to it, in iteration order. -/
def Without [BEq T] (x : List T) (y : T) : List T :=
  x.foldl (fun ret v => if v != y then ret ++ [v] else ret) []

/-! ## `Equivalent` -/

/-- A Go `map[T]interface{}` whose values are all `nil`, represented by the
list of its keys. The empty list is `make(map[T]interface{})`. -/
abbrev KeyMap (T : Type u) := List T

/-- The comma-ok lookup `_, ok := mp[v]`: is some key of the map `==` to `v`. -/
def KeyMap.has [BEq T] (mp : KeyMap T) (v : T) : Bool :=
  mp.any (fun k => k == v)

/-- The assignment `mp[v] = nil`: an existing entry is overwritten (the key set is
unchanged), otherwise a new entry is added. -/
def KeyMap.assign [BEq T] (mp : KeyMap T) (v : T) : KeyMap T :=
  if mp.has v then mp else mp ++ [v]

/-- The second loop of `Equivalent`: return `false` at the first `v` of `y`
that is not a key of `mp`, `true` when `y` is exhausted. -/
def Equivalent.allIn [BEq T] (mp : KeyMap T) : List T → Bool
  | [] => true
  | v :: rest => if !(mp.has v) then false else Equivalent.allIn mp rest

/-- Go `Equivalent`: the length guard, then the keys of `x` are put in a map and
every element of `y` is looked up in it. -/
def Equivalent [BEq T] (x y : List T) : Bool :=
  if x.length != y.length then false
  else
    let mp : KeyMap T := x.foldl KeyMap.assign []
    Equivalent.allIn mp y

/-! ## A `float64` element type -/

/-- A Go `float64` value as far as `==` sees it: the value NaN, or a number
(identified by an integer; which numbers there are plays no role for `==`). -/
inductive Float64 where
  | NaN
  | num (v : Int)
  deriving Repr

/-- Go's `==` on `float64`: two numbers are compared, NaN is equal to nothing,
not even to itself. A map keyed by `float64` uses the same comparison, so a NaN
key is never found again. -/
def Float64.eq : Float64 → Float64 → Bool
  | .num v, .num w => v == w
  | _, _ => false

instance : BEq Float64 := ⟨Float64.eq⟩

/-! ## `SplitTrim` and the two standard-library functions it calls -/

/-- Go `unicode.IsSpace`: the Latin-1 spaces `\t \n \v \f \r`, space, U+0085,
U+00A0, and the code points with the Unicode White_Space property. -/
def isSpace (c : Char) : Bool :=
  let n := c.toNat
  (9 ≤ n && n ≤ 13) || n == 32 || n == 0x85 || n == 0xA0 || n == 0x1680 ||
  (0x2000 ≤ n && n ≤ 0x200A) || n == 0x2028 || n == 0x2029 || n == 0x202F ||
  n == 0x205F || n == 0x3000

/-- Go `strings.TrimSpace`: the string without its leading and trailing
white space. -/
def TrimSpace (s : List Char) : List Char :=
  ((s.dropWhile isSpace).reverse.dropWhile isSpace).reverse

/-- Go `strings.Index`: the position of the first occurrence of `sep` in `s`,
`none` for Go's `-1`. -/
def Index : List Char → List Char → Option Nat
  | [], sep => if sep.isEmpty then some 0 else none
  | c :: s, sep =>
    if sep.isPrefixOf (c :: s) then some 0 else (Index s sep).map (fun m => m + 1)

/-- The loop of Go `strings.genSplit` (with `sepSave = 0`): at most `n` pieces are
cut off at the successive occurrences of `sep`, the rest is the last piece. -/
def genSplitLoop : Nat → List Char → List Char → List (List Char)
  | 0, s, _ => [s]
  | n + 1, s, sep =>
    match Index s sep with
    | none => [s]
    | some m => s.take m :: genSplitLoop n (s.drop (m + sep.length)) sep

/-- Go `strings.Split`: with an empty separator the string is exploded into its
code points; otherwise it is cut at every occurrence of `sep` (the number of
cuts never exceeds the length of `s`, which is the bound `genSplit` puts on `n`). -/
def Split (s sep : List Char) : List (List Char) :=
  if sep.isEmpty then s.map (fun c => [c])
  else genSplitLoop s.length s sep

/-- Go `SplitTrim`: the nil slice for the empty string, otherwise every piece of
`strings.Split(str, sep)` is trimmed and appended to `ret`. -/
def SplitTrim (str sep : List Char) : List (List Char) :=
  if str.length == 0 then []
  else
    let sp := Split str sep
    sp.foldl (fun ret v => ret ++ [TrimSpace v]) []

end Util

/-! ## The NBSetupKey validating webhook -/

namespace Webhook

/-- Kubernetes `corev1.SecretKeySelector`: the name of a secret (looked up in the
object's own namespace) and the key to read in it. -/
structure SecretKeySelector where
  Name : String
  Key : String
  deriving DecidableEq, Repr

/-- The spec of the custom resource, `netbirdiov1.NBSetupKeySpec`. -/
structure NBSetupKeySpec where
  SecretKeyRef : SecretKeySelector
  deriving DecidableEq, Repr

/-- The custom resource `netbirdiov1.NBSetupKey` (object metadata and spec). -/
structure NBSetupKey where
  Name : String
  Namespace : String
  Spec : NBSetupKeySpec
  deriving DecidableEq, Repr

/-- Kubernetes `corev1.Secret`: `Data` maps a key to its content. -/
structure Secret where
  Name : String
  Namespace : String
  Data : List (String × String)
  deriving DecidableEq, Repr

/-- Kubernetes `corev1.Pod`, reduced to its metadata. -/
structure Pod where
  Name : String
  Namespace : String
  Annotations : List (String × String)
  deriving DecidableEq, Repr

/-- The errors of the cluster API client: the object is not there, or the call
itself failed. -/
inductive ApiError where
  | notFound
  | other (msg : String)
  deriving DecidableEq, Repr

/-- Modelled from the spec: the cluster API client of `NBSetupKeyCustomValidator`
(the validator's source file is not among the sources, only its test is). The spec
names two calls, `Get` of a secret by namespace and name and `List` of the pods;
the contents of the cluster are what these calls return. -/
structure Client where
  Get : String → String → Except ApiError Secret
  List : Except ApiError (List Pod)

/-- The errors a validation callback returns. -/
inductive ValidationError where
  | noSecretRef
  | api (e : ApiError)
  | inUse (pod : String)
  deriving DecidableEq, Repr

/-- The pair `(admission.Warnings, error)` every callback returns. -/
structure Response where
  warnings : List String
  err : Option ValidationError
  deriving DecidableEq, Repr

/-- A hexadecimal digit of either case. -/
def isHexDigit (c : Char) : Bool :=
  c.isDigit || ('a' ≤ c && c ≤ 'f') || ('A' ≤ c && c ≤ 'F')

/-- Groups of hexadecimal digits of the given lengths, separated by single dashes. -/
def hexGroups : List Nat → List Char → Bool
  | [], cs => cs.isEmpty
  | [n], cs => cs.length == n && cs.all isHexDigit
  | n :: m :: rest, cs =>
    (cs.take n).length == n && (cs.take n).all isHexDigit &&
      (cs.drop n).head? == some '-' && hexGroups (m :: rest) (cs.drop (n + 1))

/-- Modelled from the spec: the format check of the setup key, "a UUID-formatted
string" such as `EEEEEEEE-EEEE-EEEE-EEEE-EEEEEEEEEEEE`: five groups of 8, 4, 4, 4
and 12 hexadecimal digits separated by dashes. -/
def isUUID (s : String) : Bool :=
  hexGroups [8, 4, 4, 4, 12] s.toList

/-- Modelled from the spec: the check shared by `ValidateCreate` and
`ValidateUpdate` (the validator's source file is not among the sources). A missing
secret reference is a hard error; a missing secret, a missing key and a malformed
key value are warnings; an API failure other than "not found" is returned as is. -/
def validate (c : Client) (obj : NBSetupKey) : Response :=
  if obj.Spec.SecretKeyRef.Name == "" then
    { warnings := [], err := some .noSecretRef }
  else
    match c.Get obj.Namespace obj.Spec.SecretKeyRef.Name with
    | .error .notFound => { warnings := ["referenced secret not found"], err := none }
    | .error e => { warnings := [], err := some (.api e) }
    | .ok secret =>
      match secret.Data.lookup obj.Spec.SecretKeyRef.Key with
      | none => { warnings := ["referenced key not found in secret"], err := none }
      | some value =>
        if isUUID value then { warnings := [], err := none }
        else { warnings := ["setup key is not a valid UUID"], err := none }

/-- Modelled from the spec: `ValidateCreate` of the validator, called with the
object being created. -/
def ValidateCreate (c : Client) (obj : NBSetupKey) : Response :=
  validate c obj

/-- Modelled from the spec: `ValidateUpdate` of the validator, called with the old
and the new object; the new object is the one validated. -/
def ValidateUpdate (c : Client) (_oldObj newObj : NBSetupKey) : Response :=
  validate c newObj

/-- Modelled from the spec: a pod holds the blocking annotation for `obj` when its
annotation `setupKeyAnnotation` has the name of `obj` as value. The key of the
annotation is a constant of the validator's source file and is a parameter here. -/
def carriesSetupKey ( setupKeyAnnotation : String) (obj : NBSetupKey) (p : Pod) : Bool :=
  p.Annotations.lookup setupKeyAnnotation == some obj.Name

/-- Modelled from the spec: `ValidateDelete` of the validator. The pods are listed;
a failure of the call is returned as is; a pod holding the blocking annotation
denies the deletion; otherwise it is allowed. -/
def ValidateDelete ( setupKeyAnnotation : String) (c : Client) (obj : NBSetupKey) : Response :=
  match c.List with
  | .error e => { warnings := [], err := some (.api e) }
  | .ok pods =>
    match pods.find? (carriesSetupKey setupKeyAnnotation obj) with
    | some p => { warnings := [], err := some (.inUse p.Name) }
    | none => { warnings := [], err := none }

/-! ### The fixtures of the webhook test -/

/-- The object of the test with an empty `SecretKeyRef`. -/
def objWithoutRef : NBSetupKey :=
  { Name := "test", Namespace := "default", Spec := { SecretKeyRef := { Name := "", Key := "" } } }

/-- The object of the test that refers to key `setupkey` of secret `test`. -/
def objWithRef : NBSetupKey :=
  { Name := "test", Namespace := "default",
    Spec := { SecretKeyRef := { Name := "test", Key := "setupkey" } } }

/-- The secret `default/test` the test creates, with one entry. -/
def createSecret (secretkey setupkey : String) : Secret :=
  { Name := "test", Namespace := "default", Data := [(secretkey, setupkey)] }

/-- A client on a cluster holding the given secrets and pods. -/
def clusterOf (secrets : List Secret) (pods : List Pod) : Client :=
  { Get := fun ns name =>
      match secrets.find? (fun s => s.Namespace == ns && s.Name == name) with
      | some s => .ok s
      | none => .error .notFound
    List := .ok pods }

/-- The pod `default/notannotated` of the test. -/
def podNotAnnotated : Pod :=
  { Name := "notannotated", Namespace := "default", Annotations := [] }

/-- The pod `default/annotated` of the test, whose blocking annotation names `test`. -/
def podAnnotated ( setupKeyAnnotation : String) : Pod :=
  { Name := "annotated", Namespace := "default", Annotations := [( setupKeyAnnotation, "test")] }

end Webhook

/-! ## Properties of the slice helpers -/

namespace Util

universe u
variable {T : Type u}

/-- The accumulating loop of `Without`, started from any `ret`. -/
theorem Without.foldl_eq [BEq T] (y : T) (x ret : List T) :
    x.foldl (fun ret v => if v != y then ret ++ [v] else ret) ret
      = ret ++ x.filter (fun v => v != y) := by
  induction x generalizing ret with
  | nil => simp
  | cons v rest ih =>
    rw [List.foldl_cons, ih]
    by_cases h : (v != y) = true
    · simp [List.filter_cons, h]
    · simp [List.filter_cons, h]

/-- An accumulating loop that appends `g v` for every `v` computes `map g`. -/
theorem foldl_append_singleton {α β : Type} (g : α → β) (l : List α) (ret : List β) :
    l.foldl (fun ret v => ret ++ [g v]) ret = ret ++ l.map g := by
  induction l generalizing ret with
  | nil => simp
  | cons v rest ih => rw [List.foldl_cons, ih]; simp

/-- With a lawful `==`, looking a value up in a key map is list membership. -/
theorem KeyMap.has_iff [BEq T] [LawfulBEq T] (mp : KeyMap T) (v : T) :
    mp.has v = true ↔ v ∈ mp := by
  unfold KeyMap.has
  rw [List.any_eq_true]
  constructor
  · rintro ⟨k, hk, hkv⟩
    have : k = v := eq_of_beq hkv
    exact this ▸ hk
  · intro h
    exact ⟨v, h, beq_self_eq_true v⟩

/-- With a lawful `==`, the keys after the first loop of `Equivalent` are the
initial keys and the elements of `x`. -/
theorem KeyMap.mem_foldl_assign [BEq T] [LawfulBEq T] (x : List T) (mp : KeyMap T) (v : T) :
    v ∈ x.foldl KeyMap.assign mp ↔ v ∈ mp ∨ v ∈ x := by
  induction x generalizing mp with
  | nil => simp
  | cons a rest ih =>
    rw [List.foldl_cons, ih]
    unfold KeyMap.assign
    by_cases h : mp.has a = true
    · have ha : a ∈ mp := (KeyMap.has_iff mp a).1 h
      simp only [h, if_true, List.mem_cons]
      constructor
      · rintro (h1 | h1)
        · exact Or.inl h1
        · exact Or.inr (Or.inr h1)
      · rintro (h1 | h1 | h1)
        · exact Or.inl h1
        · exact Or.inl (h1 ▸ ha)
        · exact Or.inr h1
    · have h0 : mp.has a = false := by simpa using h
      simp only [h0, Bool.false_eq_true, if_false, List.mem_append, List.mem_singleton,
        List.mem_cons]
      tauto

/-- The second loop of `Equivalent` succeeds exactly when every element of `y`
is found in the map. -/
theorem Equivalent.allIn_iff [BEq T] (mp : KeyMap T) (y : List T) :
    Equivalent.allIn mp y = true ↔ ∀ v ∈ y, mp.has v = true := by
  induction y with
  | nil => simp [Equivalent.allIn]
  | cons a rest ih =>
    unfold Equivalent.allIn
    by_cases h : mp.has a = true
    · simp [h, ih]
    · simp [h]

/-- With a lawful `==`, `Equivalent x y` holds exactly when the lengths agree and
every element of `y` occurs in `x`. -/
theorem Equivalent.eq_true_iff [BEq T] [LawfulBEq T] (x y : List T) :
    Equivalent x y = true ↔ x.length = y.length ∧ ∀ v ∈ y, v ∈ x := by
  unfold Equivalent
  by_cases hl : x.length = y.length
  · simp only [hl, bne_self_eq_false, Bool.false_eq_true, if_false, true_and]
    rw [Equivalent.allIn_iff]
    constructor
    · intro h v hv
      have := (KeyMap.has_iff _ v).1 (h v hv)
      rcases (KeyMap.mem_foldl_assign x [] v).1 this with h1 | h1
      · exact absurd h1 (List.not_mem_nil v)
      · exact h1
    · intro h v hv
      exact (KeyMap.has_iff _ v).2 ((KeyMap.mem_foldl_assign x [] v).2 (Or.inr (h v hv)))
  · have : (x.length != y.length) = true := by simpa [bne_iff_ne] using hl
    simp [this, hl]

/-- C1: `Contains x y` is `true` exactly when some index `i < len(x)` has
`x[i] == y`; in particular it is `false` on the empty slice. -/
theorem Contains_iff_exists_index [BEq T] (x : List T) (y : T) :
    (Contains x y = true ↔ ∃ i, ∃ h : i < x.length, (x.get ⟨i, h⟩ == y) = true)
      ∧ Contains ([] : List T) y = false := by
  refine ⟨?_, rfl⟩
  induction x with
  | nil => simp [Contains]
  | cons v rest ih =>
    unfold Contains
    by_cases hv : (v == y) = true
    · simp only [hv, if_true, true_iff]
      exact ⟨0, by simp, by simpa using hv⟩
    · simp only [hv, Bool.false_eq_true, if_false, ih]
      constructor
      · rintro ⟨i, h, hi⟩
        exact ⟨i + 1, by simpa using h, by simpa using hi⟩
      · rintro ⟨i, h, hi⟩
        cases i with
        | zero => exact absurd (by simpa using hi) hv
        | succ j => exact ⟨j, by simpa using h, by simpa using hi⟩

/-- C2: `Without x y` is `x` filtered by `v != y`: exactly the elements of `x` that
differ from `y`, in their original order, hence a subsequence of `x`. -/
theorem Without_eq_filter [BEq T] (x : List T) (y : T) :
    Without x y = x.filter (fun v => v != y) ∧ List.Sublist (Without x y) x := by
  have h : Without x y = x.filter (fun v => v != y) := by
    unfold Without
    rw [Without.foldl_eq]
    simp
  exact ⟨h, h ▸ List.filter_sublist x⟩

/-- C3: at `x = [1, 1, 2]`, `y = [1, 2, 2]` the code returns `true` although the
two slices are not permutations of each other (they differ when sorted). -/
theorem Equivalent_accepts_non_permutation :
    Equivalent [1, 1, 2] [1, 2, 2] = true
      ∧ ¬ List.Perm [1, 1, 2] [1, 2, 2]
      ∧ List.insertionSort (fun a b => a ≤ b) [1, 1, 2]
          ≠ List.insertionSort (fun a b => a ≤ b) [1, 2, 2] := by
  refine ⟨by decide, ?_, by decide⟩
  intro h
  have := h.count_eq 1
  revert this
  decide

/-- C4, as stated, fails: `[1]` and `[1, 1]` are set-equivalent (each element of one
occurs in the other) and `Equivalent` rejects them on the length guard. -/
theorem Equivalent_not_iff_set_equivalent :
    ¬ (Equivalent [1] [1, 1] = true ↔
        ((∀ v ∈ [1], v ∈ [1, 1]) ∧ (∀ v ∈ [1, 1], v ∈ [1]))) := by
  intro h
  have hf : Equivalent [1] [1, 1] = false := by decide
  have ht : Equivalent [1] [1, 1] = true := h.2 (by decide)
  rw [hf] at ht
  exact Bool.false_ne_true ht

/-- C4, amended: for a lawful `==`, set-equivalent slices of equal length are
accepted by `Equivalent`, and whenever `Equivalent x y` is `true` the lengths agree
and every element of `y` occurs in `x`. -/
theorem Equivalent_set_equivalent_of_length [BEq T] [LawfulBEq T] (x y : List T) :
    (x.length = y.length → (∀ v ∈ x, v ∈ y) → (∀ v ∈ y, v ∈ x) → Equivalent x y = true)
      ∧ (Equivalent x y = true → x.length = y.length ∧ ∀ v ∈ y, v ∈ x) := by
  constructor
  · intro hl _ hyx
    exact (Equivalent.eq_true_iff x y).2 ⟨hl, hyx⟩
  · intro h
    exact (Equivalent.eq_true_iff x y).1 h

/-- Witness of the amended C4 at `x = [1, 2]`, `y = [2, 1]`. -/
theorem Equivalent_set_equivalent_of_length_witness :
    Equivalent [1, 2] [2, 1] = true
      ∧ ([1, 2].length = [2, 1].length ∧ ∀ v ∈ [2, 1], v ∈ [1, 2]) :=
  ⟨(Equivalent_set_equivalent_of_length [1, 2] [2, 1]).1 (by decide) (by decide) (by decide),
   (Equivalent_set_equivalent_of_length [1, 2] [2, 1]).2 (by decide)⟩

/-- C5: for a non-empty `str`, `SplitTrim str sep` is `strings.Split(str, sep)` with
`strings.TrimSpace` mapped over it: same length, and the `i`-th element is the
trimmed `i`-th piece. -/
theorem SplitTrim_eq_map_TrimSpace (str sep : List Char) (hstr : str ≠ []) :
    SplitTrim str sep = (Split str sep).map TrimSpace
      ∧ (SplitTrim str sep).length = (Split str sep).length
      ∧ ∀ i, ∀ h : i < (Split str sep).length,
          (SplitTrim str sep)[i]? = some (TrimSpace ((Split str sep).get ⟨i, h⟩)) := by
  have hlen : (str.length == 0) = false := by
    cases str with
    | nil => exact absurd rfl hstr
    | cons c s => rfl
  have h : SplitTrim str sep = (Split str sep).map TrimSpace := by
    unfold SplitTrim
    simp only [hlen, Bool.false_eq_true, if_false]
    rw [foldl_append_singleton]
    simp
  refine ⟨h, by rw [h, List.length_map], ?_⟩
  intro i hi
  rw [h, List.getElem?_map, List.getElem?_eq_getElem hi]
  rfl

/-- Witness of C5 at `str = " a, b"`, `sep = ","`. -/
theorem SplitTrim_eq_map_TrimSpace_witness :
    SplitTrim [' ', 'a', ',', ' ', 'b'] [','] = [['a'], ['b']]
      ∧ (Split [' ', 'a', ',', ' ', 'b'] [',']).map TrimSpace = [['a'], ['b']] :=
  ⟨(SplitTrim_eq_map_TrimSpace [' ', 'a', ',', ' ', 'b'] [','] (by decide)).1.trans (by decide),
   by decide⟩

/-- C6: empty input gives the empty (nil) slice: `SplitTrim("", sep)` for every
separator, and `Without` of the empty slice for every value. -/
theorem empty_input_empty_output [BEq T] (sep : List Char) (y : T) :
    SplitTrim [] sep = [] ∧ Without ([] : List T) y = [] :=
  ⟨rfl, rfl⟩

end Util

/-! ## Properties of the validating webhook -/

namespace Webhook

/-- The response of `validate` when the object names no secret. -/
theorem validate_of_name_empty (c : Client) (obj : NBSetupKey)
    (h : obj.Spec.SecretKeyRef.Name = "") :
    validate c obj = { warnings := [], err := some .noSecretRef } := by
  unfold validate
  simp [h]

/-- The response of `validate` when the secret is not found. -/
theorem validate_of_notFound (c : Client) (obj : NBSetupKey)
    (hname : obj.Spec.SecretKeyRef.Name ≠ "")
    (hget : c.Get obj.Namespace obj.Spec.SecretKeyRef.Name = .error .notFound) :
    validate c obj = { warnings := ["referenced secret not found"], err := none } := by
  unfold validate
  simp [hname, hget]

/-- The response of `validate` when the secret is found and lacks the key. -/
theorem validate_of_key_missing (c : Client) (obj : NBSetupKey) (s : Secret)
    (hname : obj.Spec.SecretKeyRef.Name ≠ "")
    (hget : c.Get obj.Namespace obj.Spec.SecretKeyRef.Name = .ok s)
    (hkey : s.Data.lookup obj.Spec.SecretKeyRef.Key = none) :
    validate c obj
      = { warnings := ["referenced key not found in secret"], err := none } := by
  unfold validate
  simp [hname, hget, hkey]

/-- The response of `validate` when the secret is found and holds `value` under
the key. -/
theorem validate_of_value (c : Client) (obj : NBSetupKey) (s : Secret) (value : String)
    (hname : obj.Spec.SecretKeyRef.Name ≠ "")
    (hget : c.Get obj.Namespace obj.Spec.SecretKeyRef.Name = .ok s)
    (hkey : s.Data.lookup obj.Spec.SecretKeyRef.Key = some value) :
    validate c obj
      = if isUUID value then { warnings := [], err := none }
        else { warnings := ["setup key is not a valid UUID"], err := none } := by
  unfold validate
  simp [hname, hget, hkey]

/-- C7: when the object names no secret (empty `SecretKeyRef`), `ValidateCreate`
and `ValidateUpdate` return an error and no warning, whatever the client answers. -/
theorem validate_without_secret_ref_fails (c : Client) (oldObj obj : NBSetupKey)
    (h : obj.Spec.SecretKeyRef.Name = "") :
    ((ValidateCreate c obj).err ≠ none ∧ (ValidateCreate c obj).warnings = [])
      ∧ ((ValidateUpdate c oldObj obj).err ≠ none
          ∧ (ValidateUpdate c oldObj obj).warnings = []) := by
  unfold ValidateCreate ValidateUpdate
  rw [validate_of_name_empty c obj h]
  simp

/-- C8: with a secret reference configured, a missing secret, a missing key in the
secret and a value that is not a UUID each give no error and a non-empty list of
warnings, for `ValidateCreate` and for `ValidateUpdate`. -/
theorem validate_soft_issue_warns (c : Client) (oldObj obj : NBSetupKey)
    (hname : obj.Spec.SecretKeyRef.Name ≠ "")
    (h : c.Get obj.Namespace obj.Spec.SecretKeyRef.Name = .error .notFound
      ∨ ∃ s, c.Get obj.Namespace obj.Spec.SecretKeyRef.Name = .ok s
          ∧ (s.Data.lookup obj.Spec.SecretKeyRef.Key = none
            ∨ ∃ value, s.Data.lookup obj.Spec.SecretKeyRef.Key = some value
                ∧ isUUID value = false)) :
    ((ValidateCreate c obj).err = none ∧ (ValidateCreate c obj).warnings ≠ [])
      ∧ ((ValidateUpdate c oldObj obj).err = none
          ∧ (ValidateUpdate c oldObj obj).warnings ≠ []) := by
  unfold ValidateCreate ValidateUpdate
  rcases h with hget | ⟨s, hget, hkey | ⟨value, hkey, hbad⟩⟩
  · rw [validate_of_notFound c obj hname hget]
    simp
  · rw [validate_of_key_missing c obj s hname hget hkey]
    simp
  · rw [validate_of_value c obj s value hname hget hkey, hbad]
    simp

/-- C9: when the referenced secret exists and holds a UUID-formatted value under
the referenced key, `ValidateCreate` and `ValidateUpdate` return no error and no
warning. -/
theorem validate_valid_key_passes (c : Client) (oldObj obj : NBSetupKey) (s : Secret)
    (value : String)
    (hname : obj.Spec.SecretKeyRef.Name ≠ "")
    (hget : c.Get obj.Namespace obj.Spec.SecretKeyRef.Name = .ok s)
    (hkey : s.Data.lookup obj.Spec.SecretKeyRef.Key = some value)
    (hvalid : isUUID value = true) :
    ((ValidateCreate c obj).err = none ∧ (ValidateCreate c obj).warnings = [])
      ∧ ((ValidateUpdate c oldObj obj).err = none
          ∧ (ValidateUpdate c oldObj obj).warnings = []) := by
  unfold ValidateCreate ValidateUpdate
  rw [validate_of_value c obj s value hname hget hkey, hvalid]
  simp

/-- C10: on a cluster whose pods are `pods`, `ValidateDelete` returns an error
exactly when some pod carries the blocking annotation referring to the object; when
no pod does (other pods may exist) the deletion is allowed, without warning. -/
theorem ValidateDelete_error_iff ( setupKeyAnnotation : String) (c : Client)
    (obj : NBSetupKey) (pods : List Pod) (hlist : c.List = .ok pods) :
    ((ValidateDelete setupKeyAnnotation c obj).err ≠ none
        ↔ ∃ p ∈ pods, carriesSetupKey setupKeyAnnotation obj p = true)
      ∧ ((∀ p ∈ pods, carriesSetupKey setupKeyAnnotation obj p = false)
          → ValidateDelete setupKeyAnnotation c obj = { warnings := [], err := none }) := by
  have hdel : ValidateDelete setupKeyAnnotation c obj
      = match pods.find? (carriesSetupKey setupKeyAnnotation obj) with
        | some p => { warnings := [], err := some (.inUse p.Name) }
        | none => { warnings := [], err := none } := by
    unfold ValidateDelete
    rw [hlist]
  rw [hdel]
  cases hfind : pods.find? (carriesSetupKey setupKeyAnnotation obj) with
  | none =>
    have hnone := List.find?_eq_none.1 hfind
    refine ⟨⟨fun h => absurd rfl h, ?_⟩, fun _ => rfl⟩
    rintro ⟨p, hp, hc⟩
    exact absurd hc (hnone p hp)
  | some q =>
    have hq : carriesSetupKey setupKeyAnnotation obj q = true := List.find?_some hfind
    have hmem : q ∈ pods := List.mem_of_find?_eq_some hfind
    refine ⟨⟨fun _ => ⟨q, hmem, hq⟩, fun _ => by simp⟩, ?_⟩
    intro hall
    rw [hall q hmem] at hq
    exact absurd hq Bool.false_ne_true

/-- Witness of C7: the test "secretKeyRef is empty", on an empty cluster. -/
theorem validate_without_secret_ref_fails_witness :
    objWithoutRef.Spec.SecretKeyRef.Name = ""
      ∧ ValidateCreate (clusterOf [] []) objWithoutRef
          = { warnings := [], err := some .noSecretRef }
      ∧ (ValidateCreate (clusterOf [] []) objWithoutRef).err ≠ none :=
  ⟨rfl, by decide,
    (validate_without_secret_ref_fails (clusterOf [] []) objWithRef objWithoutRef rfl).1.1⟩

/-- Witness of C8: the test "setup key is invalid", the secret holding `EEEEEEEE`. -/
theorem validate_soft_issue_warns_witness :
    isUUID "EEEEEEEE" = false
      ∧ (ValidateCreate (clusterOf [createSecret "setupkey" "EEEEEEEE"] []) objWithRef).err
          = none
      ∧ (ValidateCreate (clusterOf [createSecret "setupkey" "EEEEEEEE"] [])
          objWithRef).warnings ≠ [] :=
  ⟨by decide,
    (validate_soft_issue_warns (clusterOf [createSecret "setupkey" "EEEEEEEE"] [])
      objWithRef objWithRef (by decide)
      (Or.inr ⟨createSecret "setupkey" "EEEEEEEE", rfl,
        Or.inr ⟨"EEEEEEEE", rfl, by decide⟩⟩)).1⟩

/-- Witness of C9: the test "setup key is valid". -/
theorem validate_valid_key_passes_witness :
    isUUID "EEEEEEEE-EEEE-EEEE-EEEE-EEEEEEEEEEEE" = true
      ∧ (ValidateCreate
          (clusterOf [createSecret "setupkey" "EEEEEEEE-EEEE-EEEE-EEEE-EEEEEEEEEEEE"] [])
          objWithRef).err = none
      ∧ (ValidateCreate
          (clusterOf [createSecret "setupkey" "EEEEEEEE-EEEE-EEEE-EEEE-EEEEEEEEEEEE"] [])
          objWithRef).warnings = [] :=
  ⟨by decide,
    (validate_valid_key_passes
      (clusterOf [createSecret "setupkey" "EEEEEEEE-EEEE-EEEE-EEEE-EEEEEEEEEEEE"] [])
      objWithRef objWithRef
      (createSecret "setupkey" "EEEEEEEE-EEEE-EEEE-EEEE-EEEEEEEEEEEE")
      "EEEEEEEE-EEEE-EEEE-EEEE-EEEEEEEEEEEE" (by decide) rfl rfl (by decide)).1⟩

/-- Witness of C10: the two delete tests, a cluster with the pod `notannotated`
alone and one with the pod `annotated` as well. -/
theorem ValidateDelete_error_iff_witness :
    ValidateDelete "netbird.io/setup-key"
        (clusterOf [] [podNotAnnotated]) objWithRef = { warnings := [], err := none }
      ∧ (ValidateDelete "netbird.io/setup-key"
          (clusterOf [] [podNotAnnotated, podAnnotated "netbird.io/setup-key"])
          objWithRef).err ≠ none :=
  ⟨(ValidateDelete_error_iff "netbird.io/setup-key" (clusterOf [] [podNotAnnotated])
      objWithRef [podNotAnnotated] rfl).2 (by decide),
   (ValidateDelete_error_iff "netbird.io/setup-key"
      (clusterOf [] [podNotAnnotated, podAnnotated "netbird.io/setup-key"]) objWithRef
      [podNotAnnotated, podAnnotated "netbird.io/setup-key"] rfl).1.2
      ⟨podAnnotated "netbird.io/setup-key", by simp, by decide⟩⟩

end Webhook

/-! ## The cases of the webhook test, evaluated on the model -/

namespace Webhook

/-- Test "secret doesn't exist": no error, one warning. -/
theorem test_secret_missing :
    ValidateCreate (clusterOf [] []) objWithRef
      = { warnings := ["referenced secret not found"], err := none } := by
  decide

/-- Test "secret key doesn't exist": the secret holds `wrongkey` only. -/
theorem test_secret_key_missing :
    ValidateCreate
        (clusterOf [createSecret "wrongkey" "EEEEEEEE-EEEE-EEEE-EEEE-EEEEEEEEEEEE"] [])
        objWithRef
      = { warnings := ["referenced key not found in secret"], err := none } := by
  decide

/-- A failure of the `List` call is returned by `ValidateDelete` as it is. -/
theorem ValidateDelete_of_list_error ( setupKeyAnnotation : String) (c : Client)
    (obj : NBSetupKey) (e : ApiError) (hlist : c.List = .error e) :
    ValidateDelete setupKeyAnnotation c obj = { warnings := [], err := some (.api e) } := by
  unfold ValidateDelete
  rw [hlist]

end Webhook

/-! ## Further properties of `Contains`, `Without` and `Equivalent` -/

namespace Util

universe u
variable {T : Type u}

/-- The early-return loop of `Contains` is `List.any` of `v == y`. -/
theorem Contains.eq_any [BEq T] (x : List T) (y : T) :
    Contains x y = x.any (fun v => v == y) := by
  induction x with
  | nil => rfl
  | cons v rest ih =>
    unfold Contains
    rw [List.any_cons, ← ih]
    cases v == y <;> rfl

/-- For a reflexive `==`, a member of the slice is found by `Contains`. -/
theorem Contains.of_mem [BEq T] [ReflBEq T] (x : List T) (v : T) (h : v ∈ x) :
    Contains x v = true := by
  rw [Contains.eq_any, List.any_eq_true]
  exact ⟨v, h, BEq.refl⟩

/-- The loop of `Without`, started from the nil slice, is a filter. -/
theorem Without.eq_filter [BEq T] (x : List T) (y : T) :
    Without x y = x.filter (fun v => v != y) := by
  unfold Without
  rw [Without.foldl_eq, List.nil_append]

/-- No element of `Without x y` is `==` to `y`, whatever `==` is. -/
theorem Contains.without_self [BEq T] (x : List T) (y : T) :
    Contains (Without x y) y = false := by
  rw [Without.eq_filter, Contains.eq_any, List.any_filter, List.any_eq_false]
  intro v _
  cases h : v == y <;> simp [bne, h]

/-- For a symmetric and transitive `==`, removing `y` does not change whether a
value `z` with `z != y` is found. -/
theorem Contains.without_other [BEq T] [PartialEquivBEq T] (x : List T) (y z : T)
    (hzy : (z != y) = true) :
    Contains (Without x y) z = Contains x z := by
  have hne : (z == y) = false := by simpa [bne] using hzy
  rw [Without.eq_filter, Contains.eq_any, Contains.eq_any, List.any_filter]
  induction x with
  | nil => rfl
  | cons v rest ih =>
    rw [List.any_cons, List.any_cons, ih]
    congr 1
    cases hvz : v == z with
    | false => simp
    | true =>
      have hvy : (v == y) = false := BEq.neq_of_beq_of_neq hvz hne
      simp [bne, hvy]

/-- For a transitive `==`, a value is found among the keys after the first loop of
`Equivalent` exactly when it is found among the initial keys or in `x`. -/
theorem KeyMap.has_foldl_assign [BEq T] [PartialEquivBEq T] (x : List T) (mp : KeyMap T)
    (v : T) :
    (x.foldl KeyMap.assign mp).has v = true ↔ mp.has v = true ∨ Contains x v = true := by
  induction x generalizing mp with
  | nil => simp [Contains]
  | cons a rest ih =>
    rw [List.foldl_cons, ih]
    have hc : Contains (a :: rest) v = true ↔ (a == v) = true ∨ Contains rest v = true := by
      rw [Contains.eq_any, Contains.eq_any, List.any_cons, Bool.or_eq_true]
    rw [hc]
    unfold KeyMap.assign
    cases hmp : mp.has a with
    | true =>
      simp only [if_true]
      constructor
      · rintro (h | h)
        · exact Or.inl h
        · exact Or.inr (Or.inr h)
      · rintro (h | h | h)
        · exact Or.inl h
        · left
          unfold KeyMap.has at hmp ⊢
          rw [List.any_eq_true] at hmp ⊢
          obtain ⟨k, hk, hka⟩ := hmp
          exact ⟨k, hk, BEq.trans hka h⟩
        · exact Or.inr h
    | false =>
      have happ : (mp ++ [a]).has v = true ↔ mp.has v = true ∨ (a == v) = true := by
        unfold KeyMap.has
        simp [List.any_append]
      simp only [Bool.false_eq_true, if_false, happ]
      tauto

/-- For a transitive `==`, `Equivalent x y` holds exactly when the lengths agree and
every element of `y` is found in `x` by `Contains`. -/
theorem Equivalent.eq_true_iff_contains [BEq T] [PartialEquivBEq T] (x y : List T) :
    Equivalent x y = true ↔ x.length = y.length ∧ ∀ v ∈ y, Contains x v = true := by
  unfold Equivalent
  by_cases hl : x.length = y.length
  · simp only [hl, bne_self_eq_false, Bool.false_eq_true, if_false, true_and]
    rw [Equivalent.allIn_iff]
    constructor
    · intro h v hv
      rcases (KeyMap.has_foldl_assign x [] v).1 (h v hv) with h1 | h1
      · simp [KeyMap.has] at h1
      · exact h1
    · intro h v hv
      exact (KeyMap.has_foldl_assign x [] v).2 (Or.inr (h v hv))
  · have : (x.length != y.length) = true := by simpa [bne_iff_ne] using hl
    simp [this, hl]

/-- `strings.TrimSpace` is the leading trim followed by the trailing trim. -/
theorem TrimSpace.eq_rdropWhile (s : List Char) :
    TrimSpace s = List.rdropWhile isSpace (s.dropWhile isSpace) := rfl

/-- A trimmed string does not start with white space. -/
theorem TrimSpace.head_not_space (s : List Char) (c : Char)
    (h : (TrimSpace s).head? = some c) : isSpace c = false := by
  have hpre : TrimSpace s <+: s.dropWhile isSpace := by
    rw [TrimSpace.eq_rdropWhile]
    exact List.rdropWhile_prefix isSpace _
  obtain ⟨t, ht⟩ := hpre
  cases hr : TrimSpace s with
  | nil => rw [hr] at h; exact absurd h (by simp)
  | cons d r =>
    rw [hr] at h ht
    have hd : d = c := by simpa using h
    have hhead := List.head?_dropWhile_not isSpace s
    rw [← ht] at hhead
    simpa [hd] using hhead

/-- A trimmed string does not end with white space. -/
theorem TrimSpace.last_not_space (s : List Char) (c : Char)
    (h : (TrimSpace s).getLast? = some c) : isSpace c = false := by
  have hne : List.rdropWhile isSpace (s.dropWhile isSpace) ≠ [] := by
    intro h0
    rw [TrimSpace.eq_rdropWhile, h0] at h
    exact absurd h (by simp)
  have hlast := List.rdropWhile_last_not isSpace (s.dropWhile isSpace) hne
  rw [TrimSpace.eq_rdropWhile, List.getLast?_eq_getLast _ hne] at h
  have hc : (List.rdropWhile isSpace (s.dropWhile isSpace)).getLast hne = c := by
    simpa using h
  rw [hc] at hlast
  simpa using hlast

/-- Trimming a trimmed string changes nothing. -/
theorem TrimSpace.idempotent (s : List Char) : TrimSpace (TrimSpace s) = TrimSpace s := by
  have hdrop : (TrimSpace s).dropWhile isSpace = TrimSpace s := by
    cases hr : TrimSpace s with
    | nil => rfl
    | cons d r =>
      have hd : isSpace d = false := TrimSpace.head_not_space s d (by rw [hr]; rfl)
      simp [List.dropWhile_cons, hd]
  have hstep : TrimSpace (TrimSpace s)
      = List.rdropWhile isSpace ((TrimSpace s).dropWhile isSpace) := rfl
  rw [hstep, hdrop, TrimSpace.eq_rdropWhile]
  exact List.rdropWhile_idempotent isSpace _

/-- The loop of `genSplit` always yields at least one piece. -/
theorem genSplitLoop_ne_nil (n : Nat) (s sep : List Char) : genSplitLoop n s sep ≠ [] := by
  cases n with
  | zero => simp [genSplitLoop]
  | succ k =>
    unfold genSplitLoop
    cases Index s sep <;> simp

/-- The split of a non-empty string has at least one piece. -/
theorem Split_ne_nil (s sep : List Char) (hs : s ≠ []) : Split s sep ≠ [] := by
  unfold Split
  by_cases hsep : sep.isEmpty = true
  · simpa [hsep] using hs
  · simp only [hsep, Bool.false_eq_true, if_false]
    exact genSplitLoop_ne_nil _ _ _

/-- Whatever the string, `SplitTrim` is the empty slice or `TrimSpace` mapped over
the split. -/
theorem SplitTrim.eq_map (str sep : List Char) :
    SplitTrim str sep = if str.length == 0 then [] else (Split str sep).map TrimSpace := by
  unfold SplitTrim
  cases str.length == 0
  · simp only [Bool.false_eq_true, if_false]
    rw [foldl_append_singleton, List.nil_append]
  · rfl

/-- Every element of `SplitTrim str sep` is the trim of some string. -/
theorem SplitTrim.mem_is_trimmed (str sep e : List Char) (he : e ∈ SplitTrim str sep) :
    ∃ v, e = TrimSpace v := by
  rw [SplitTrim.eq_map] at he
  cases hlen : str.length == 0
  · rw [hlen] at he
    simp only [Bool.false_eq_true, if_false, List.mem_map] at he
    obtain ⟨v, _, hv⟩ := he
    exact ⟨v, hv.symm⟩
  · rw [hlen] at he
    simp at he

/-- C11: `Without x y` holds no element `==` to `y`, and for `z != y` it contains
`z` exactly when `x` does (for a symmetric and transitive `==`, as Go's is). -/
theorem Without_removes_only_y [BEq T] [PartialEquivBEq T] (x : List T) (y z : T) :
    Contains (Without x y) y = false
      ∧ ((z != y) = true → Contains (Without x y) z = Contains x z) :=
  ⟨Contains.without_self x y, Contains.without_other x y z⟩

/-- Witness of C11 at `x = [1, 2, 1, 3]`, `y = 1`, `z = 2`. -/
theorem Without_removes_only_y_witness :
    Without [1, 2, 1, 3] 1 = [2, 3]
      ∧ Contains (Without [1, 2, 1, 3] 1) 1 = false
      ∧ Contains (Without [1, 2, 1, 3] 1) 2 = Contains [1, 2, 1, 3] 2 :=
  ⟨by decide, (Without_removes_only_y [1, 2, 1, 3] 1 2).1,
    (Without_removes_only_y [1, 2, 1, 3] 1 2).2 (by decide)⟩

/-- Go's `==` on `float64` is symmetric and transitive (it is not reflexive). -/
instance Float64.partialEquivBEq : PartialEquivBEq Float64 where
  symm := by
    intro a b h
    cases a <;> cases b <;>
      first
        | exact absurd h Bool.false_ne_true
        | exact @BEq.symm Int _ _ _ _ h
  trans := by
    intro a b c hab hbc
    cases a <;> cases b <;> cases c <;>
      first
        | exact absurd hab Bool.false_ne_true
        | exact absurd hbc Bool.false_ne_true
        | exact @BEq.trans Int _ _ _ _ _ hab hbc

/-- C12, as stated, fails: on `float64` the slice `[NaN]` is a permutation of itself
and `Equivalent` rejects it, because the NaN key put in the map is never found. -/
theorem Equivalent_rejects_NaN_slice :
    List.Perm [Float64.NaN] [Float64.NaN]
      ∧ Equivalent [Float64.NaN] [Float64.NaN] = false
      ∧ ¬ ((List.Perm [Float64.NaN] [Float64.NaN]
              → Equivalent [Float64.NaN] [Float64.NaN] = true)
            ∧ Equivalent [Float64.NaN] [Float64.NaN] = true) := by
  have hf : Equivalent [Float64.NaN] [Float64.NaN] = false := by decide
  refine ⟨List.Perm.refl _, hf, ?_⟩
  rintro ⟨_, h⟩
  rw [hf] at h
  exact Bool.false_ne_true h

/-- C12, amended: for an element type whose `==` is reflexive (an equivalence, as
Go's `==` is on every value but a floating-point NaN), `Equivalent x y` is `true`
whenever `y` is a permutation of `x`; in particular `Equivalent x x` is `true`. -/
theorem Equivalent_of_perm [BEq T] [EquivBEq T] (x y : List T) :
    (List.Perm y x → Equivalent x y = true) ∧ Equivalent x x = true := by
  have key : ∀ a b : List T, List.Perm b a → Equivalent a b = true := by
    intro a b hperm
    rw [Equivalent.eq_true_iff_contains]
    refine ⟨hperm.length_eq.symm, ?_⟩
    intro v hv
    exact Contains.of_mem a v (hperm.mem_iff.1 hv)
  exact ⟨key x y, key x x (List.Perm.refl x)⟩

/-- Witness of the amended C12 at `x = [1, 2, 3]`, `y = [3, 1, 2]`. -/
theorem Equivalent_of_perm_witness :
    List.Perm [3, 1, 2] [1, 2, 3]
      ∧ Equivalent [1, 2, 3] [3, 1, 2] = true ∧ Equivalent [1, 2, 3] [1, 2, 3] = true :=
  ⟨by decide, (Equivalent_of_perm [1, 2, 3] [3, 1, 2]).1 (by decide),
    (Equivalent_of_perm [1, 2, 3] [3, 1, 2]).2⟩

/-- C13: every element `e` of `SplitTrim str sep` is already trimmed: `TrimSpace e`
is `e`, and `e` neither starts nor ends with a white space character; and for a
non-empty `str` the result has at least one element. -/
theorem SplitTrim_elements_trimmed (str sep : List Char) :
    (∀ e ∈ SplitTrim str sep,
        TrimSpace e = e
          ∧ (∀ c, e.head? = some c → isSpace c = false)
          ∧ (∀ c, e.getLast? = some c → isSpace c = false))
      ∧ (str ≠ [] → 1 ≤ (SplitTrim str sep).length) := by
  constructor
  · intro e he
    obtain ⟨v, rfl⟩ := SplitTrim.mem_is_trimmed str sep e he
    exact ⟨TrimSpace.idempotent v, TrimSpace.head_not_space v, TrimSpace.last_not_space v⟩
  · intro hstr
    have hlen : (str.length == 0) = false := by
      cases str with
      | nil => exact absurd rfl hstr
      | cons c s => rfl
    rw [SplitTrim.eq_map, hlen]
    simp only [Bool.false_eq_true, if_false, List.length_map]
    exact List.length_pos.2 (Split_ne_nil str sep hstr)

/-- Witness of C13 at `str = "  x ;y "`, `sep = ";"`. -/
theorem SplitTrim_elements_trimmed_witness :
    SplitTrim [' ', ' ', 'x', ' ', ';', 'y', ' '] [';'] = [['x'], ['y']]
      ∧ TrimSpace ['x'] = ['x']
      ∧ 1 ≤ (SplitTrim [' ', ' ', 'x', ' ', ';', 'y', ' '] [';']).length :=
  ⟨by decide,
    ((SplitTrim_elements_trimmed [' ', ' ', 'x', ' ', ';', 'y', ' '] [';']).1 ['x']
      (by decide)).1,
    (SplitTrim_elements_trimmed [' ', ' ', 'x', ' ', ';', 'y', ' '] [';']).2 (by decide)⟩

/-- C14: at `x = [1, 2]`, `y = [1, 1]` the code is not symmetric: `Equivalent x y` is
`true` and `Equivalent y x` is `false`. -/
theorem Equivalent_not_symmetric :
    Equivalent [1, 2] [1, 1] = true ∧ Equivalent [1, 1] [1, 2] = false
      ∧ Equivalent [1, 2] [1, 1] ≠ Equivalent [1, 1] [1, 2] := by
  decide

/-- C15: `Equivalent x y` is `true` exactly when `len(x) == len(y)` and every element
of `y` occurs in `x` (for a symmetric and transitive `==`, as Go's is); nothing else
is checked. -/
theorem Equivalent_iff_length_and_contains [BEq T] [PartialEquivBEq T] (x y : List T) :
    Equivalent x y = true ↔ x.length = y.length ∧ ∀ v ∈ y, Contains x v = true :=
  Equivalent.eq_true_iff_contains x y

/-- Witness of C15 at `x = [1, 2]`, `y = [1, 1]`: equal lengths, both elements of `y`
occur in `x`, and `2` is missing from `y`. -/
theorem Equivalent_iff_length_and_contains_witness :
    Equivalent [1, 2] [1, 1] = true ∧ Contains [1, 1] 2 = false :=
  ⟨(Equivalent_iff_length_and_contains [1, 2] [1, 1]).2 ⟨by decide, by decide⟩, by decide⟩

end Util
